import Mathlib

/-!
Verification of the contract reconciliation dashboard (`app.py`).

This file gives a shallow embedding of the core logic of the app:
the reference-code extractor `extract_code_from_ref`, the row
normalizers of the upload tab, the payment-schedule generator
`generate_payment_schedule`, the reconciliation sets of the
reconciliation tab, and the as-of-today status analysis of the
schedule tab, together with theorems about them.

Conventions of the embedding:
 - A spreadsheet cell is a `CellValue`: text, a number, or empty
   (`empty` models a missing cell / NaN).
 - Calendar dates are a plain `(year, month, day)` structure; the
   pandas `Timestamp` order is the lexicographic order `Date.le`.
 - `pd.to_datetime(..., errors=coerce)` on the day-first strings this
   app feeds it is modelled by `parseDMY` / `parseDateCell`; anything
   unparseable is `none` (NaT).
 - The Python `re.findall` for the fixed pattern `[A-Z0-9&_-]+/\d+` is
   modelled by `findallCN`, a left-to-right scanner with fuel.  The
   character classes `[A-Z]`, `[0-9]`, `\d` are the ASCII classes
   (all inputs of interest are ASCII).
 - Monetary amounts are rationals.
-/

/-- A value held in one spreadsheet cell: a text value, a numeric
value, or a missing cell (NaN). -/
inductive CellValue where
  | str (s : String)
  | num (q : ℚ)
  | empty
deriving DecidableEq

/-- A calendar date, as `pandas.Timestamp` dates are used by the app:
year, month (1..12), day (1..31). -/
structure Date where
  year : Nat
  month : Nat
  day : Nat
deriving DecidableEq

/-- Timestamp comparison: lexicographic on (year, month, day). -/
def Date.le (a b : Date) : Bool :=
  if a.year < b.year then true
  else if b.year < a.year then false
  else if a.month < b.month then true
  else if b.month < a.month then false
  else decide (a.day ≤ b.day)

/-- A date that `pd.to_datetime` can actually produce: month in 1..12,
day at least 1. -/
def validDate (d : Date) : Prop :=
  1 ≤ d.month ∧ d.month ≤ 12 ∧ 1 ≤ d.day

instance (d : Date) : Decidable (validDate d) := by
  unfold validDate; infer_instance

/-- Linear month counter: months since year 0, used to enumerate the
month-start anchors of `pd.date_range(freq = MS)`. -/
def monthIdx (d : Date) : Nat :=
  d.year * 12 + (d.month - 1)

/-- The first day of the month with linear counter `k`. -/
def monthStartOfIdx (k : Nat) : Date :=
  ⟨k / 12, k % 12 + 1, 1⟩

/-- English month name, as produced by `strftime` directive `%B`. -/
def monthName (m : Nat) : String :=
  match m with
  | 1 => "January"
  | 2 => "February"
  | 3 => "March"
  | 4 => "April"
  | 5 => "May"
  | 6 => "June"
  | 7 => "July"
  | 8 => "August"
  | 9 => "September"
  | 10 => "October"
  | 11 => "November"
  | 12 => "December"
  | _ => ""

/-- The `strftime` format `%B %Y`, e.g. "February 2024": the label of a
schedule month and of the payment month of an invoice. -/
def monthLabel (d : Date) : String :=
  monthName d.month ++ " " ++ toString d.year

/-- Left-pad a numeral to two digits, for `%d` / `%m`. -/
def pad2 (n : Nat) : String :=
  if n < 10 then "0" ++ toString n else toString n

/-- The `strftime` format `%d-%m-%Y`, the external date format of the app. -/
def formatDMY (d : Date) : String :=
  pad2 d.day ++ "-" ++ pad2 d.month ++ "-" ++ toString d.year

/-- Split a character list on a separator (the list-level counterpart
of `String.splitOn` for a single separator character). -/
def splitChar (sep : Char) : List Char → List (List Char)
  | [] => [[]]
  | c :: cs =>
    if c = sep then [] :: splitChar sep cs
    else
      match splitChar sep cs with
      | r :: rs => (c :: r) :: rs
      | [] => [[c]]

/-- Read a nonempty all-digit character list as a natural number. -/
def digitsToNat? (l : List Char) : Option Nat :=
  if l ≠ [] ∧ l.all Char.isDigit then
    some (l.foldl (fun n c => n * 10 + (c.toNat - 48)) 0)
  else none

/-- Modelled library collaborator: `pd.to_datetime(s, dayfirst=True)`
on the day-first strings this app feeds it ("DD-MM-YYYY"); returns
`none` (NaT) when the string is not such a date. -/
def parseDMY (s : String) : Option Date :=
  match splitChar '-' s.data with
  | [ds, ms, ys] =>
    match digitsToNat? ds, digitsToNat? ms, digitsToNat? ys with
    | some d, some m, some y =>
      if 1 ≤ m ∧ m ≤ 12 ∧ 1 ≤ d ∧ d ≤ 31 then some (⟨y, m, d⟩ : Date) else none
    | _, _, _ => none
  | _ => none

/-- Modelled library collaborator: `pd.to_datetime(cell, errors =
coerce)` on a raw cell; a missing or numeric cell and an unparseable
string all coerce to `none` (NaT). -/
def parseDateCell (v : CellValue) : Option Date :=
  match v with
  | .str s => parseDMY s
  | _ => none

/-- Composition `pd.to_datetime(col, errors=coerce).dt.strftime(d-m-Y)` then `fillna`:
the normalized external representation of a date cell, with the empty
string as the sentinel for an unparseable value. -/
def normalizeDateField (v : CellValue) : String :=
  match parseDateCell v with
  | some d => formatDMY d
  | none => ""

/-! ### Reference Parser (`extract_code_from_ref`) -/

/-- Membership in the regex character class `[A-Z0-9&_-]` of the
pattern in `extract_code_from_ref`. -/
def isCodeChar (c : Char) : Bool :=
  c.isUpper || c.isDigit || c == '&' || c == '_' || c == '-'

/-- One step of `re.findall` for the pattern `[A-Z0-9&_-]+/\d+`:
scan left to right; at a class character, take the maximal class run,
require a slash and then at least one digit (the maximal digit run);
on success emit the match and resume after it, otherwise advance one
position.  (For this pattern backtracking the greedy run can never
help, since `/` is not in the class, so the maximal-run rule is exactly
the Python behaviour.)  `fuel` bounds the recursion; `findallCN` supplies
enough for the whole input. -/
def findallAux : Nat → List Char → List (List Char)
  | 0, _ => []
  | _ + 1, [] => []
  | fuel + 1, c :: cs =>
    if isCodeChar c then
      match (c :: cs).dropWhile isCodeChar with
      | [] => findallAux fuel cs
      | d :: rest2 =>
        if d = '/' then
          if (rest2.takeWhile Char.isDigit).isEmpty then findallAux fuel cs
          else ((c :: cs).takeWhile isCodeChar ++ '/' :: rest2.takeWhile Char.isDigit)
                :: findallAux fuel (rest2.dropWhile Char.isDigit)
        else findallAux fuel cs
    else findallAux fuel cs

/-- Full `re.findall(pattern, s)` for the fixed pattern `[A-Z0-9&_-]+/\d+`. -/
def findallCN (l : List Char) : List (List Char) :=
  findallAux l.length l

/-- Function `extract_code_from_ref` (app.py lines 22-27): a non-string value
returns the empty string immediately; otherwise return the last
`findall` match, or the empty string when there is none. -/
def extract_code_from_ref (reference : CellValue) : String :=
  match reference with
  | .str s =>
    match (findallCN s.data).getLast? with
    | some m => String.mk m
    | none => ""
  | _ => ""

/-! ### Row Normalizer (upload tab, app.py lines 63-102) -/

/-- One raw row of the tenancy contracts table, projected to the ten
required columns (app.py line 73).  The two monetary source fields are
`Option` rationals: `none` models a NaN cell. -/
structure RawContractRow where
  tenants : CellValue
  contractReference : CellValue
  startDate : CellValue
  endDate : CellValue
  noOfCheques : CellValue
  installmentAmount : CellValue
  contractualPeriodMonths : CellValue
  monthsPerCheque : CellValue
  rentAsPerContract : Option ℚ
  serviceAsPerContract : Option ℚ
deriving DecidableEq

/-- A processed contract row: the ten projected columns plus the two
derived columns `Total Value` and `Contract Code` (app.py lines 76-80).
Only the date columns are rewritten in place (formatted, with the
empty string for NaT); `fillna(0)` is applied inside the sum only, so
the monetary source columns stay optional. -/
structure ContractRecord where
  tenants : CellValue
  contractReference : CellValue
  startDate : String
  endDate : String
  noOfCheques : CellValue
  installmentAmount : CellValue
  contractualPeriodMonths : CellValue
  monthsPerCheque : CellValue
  rentAsPerContract : Option ℚ
  serviceAsPerContract : Option ℚ
  totalValue : ℚ
  contractCode : String
deriving DecidableEq

/-- Per-row normalization of the contracts table (app.py lines 76-80):
`Total Value` is `rent.fillna(0) + service.fillna(0)`, the two date
columns are coerced and formatted with the empty string for NaT, and
`Contract Code` is extracted from `Contract Reference`. -/
def normalizeContractRow (r : RawContractRow) : ContractRecord :=
  ⟨r.tenants, r.contractReference,
   normalizeDateField r.startDate, normalizeDateField r.endDate,
   r.noOfCheques, r.installmentAmount,
   r.contractualPeriodMonths, r.monthsPerCheque,
   r.rentAsPerContract, r.serviceAsPerContract,
   r.rentAsPerContract.getD 0 + r.serviceAsPerContract.getD 0,
   extract_code_from_ref r.contractReference⟩

/-- One raw row of the transaction log, projected to the five required
columns (app.py line 92). -/
structure RawInvoiceRow where
  date : CellValue
  transactionType : CellValue
  no : CellValue
  name : CellValue
  amount : ℚ
deriving DecidableEq

/-- The type filter of app.py line 95: keep a row when the lowercased
Transaction Type cell equals "invoice"; a non-string cell (NaN)
compares unequal and is dropped. -/
def isInvoiceRow (r : RawInvoiceRow) : Bool :=
  match r.transactionType with
  | .str s => s.toLower == "invoice"
  | _ => false

/-- A processed invoice row, the five displayed columns of app.py
line 98: formatted date (empty for NaT), name, raw reference,
extracted contract code, amount. -/
structure InvoiceRecord where
  date : String
  name : CellValue
  no : CellValue
  contractCode : String
  amount : ℚ
deriving DecidableEq

/-- Per-row normalization of the transaction log (app.py lines 96-98):
extract the code from the `No.` column, coerce and format the date. -/
def normalizeInvoiceRow (r : RawInvoiceRow) : InvoiceRecord :=
  ⟨normalizeDateField r.date, r.name, r.no,
   extract_code_from_ref r.no, r.amount⟩

/-- The ten required contract-table columns (app.py line 73). -/
def requiredContractCols : List String :=
  ["Tenants", "Contract Reference", "Start Date", "End Date",
   "No. of Cheques", "Installment Amount", "Contractual period (months)",
   "Months Per Cheque", "Rent As per Contract", "Service as per Contract"]

/-- The five required transaction-log columns (app.py line 92). -/
def requiredInvoiceCols : List String :=
  ["Date", "Transaction Type", "No.", "Name", "Amount"]

/-- The missing-column comprehension of app.py lines 74/93: the
required columns absent from the uploaded header, by exact
case-sensitive string comparison, in required-list order. -/
def missingCols (required present : List String) : List String :=
  required.filter (fun c => !(present.contains c))

/-- The error message of app.py line 84. -/
def contractMissingMsg (missing : List String) : String :=
  "Contract file missing columns: " ++ String.intercalate (", ") missing

/-- Contract-table processing (app.py lines 72-84): when any required
column is missing, report the message and process nothing; otherwise
normalize every row. -/
def processContracts (presentCols : List String) (rows : List RawContractRow) :
    Except String (List ContractRecord) :=
  if (missingCols requiredContractCols presentCols).isEmpty then
    .ok (rows.map normalizeContractRow)
  else
    .error (contractMissingMsg (missingCols requiredContractCols presentCols))

/-- The error message of app.py line 101. -/
def invoiceMissingMsg (missing : List String) : String :=
  "Transaction log missing columns: " ++ String.intercalate (", ") missing

/-- Transaction-log processing (app.py lines 91-101): when any
required column is missing, report the message and process nothing;
otherwise keep only invoice-typed rows and normalize them. -/
def processInvoices (presentCols : List String) (rows : List RawInvoiceRow) :
    Except String (List InvoiceRecord) :=
  if (missingCols requiredInvoiceCols presentCols).isEmpty then
    .ok ((rows.filter isInvoiceRow).map normalizeInvoiceRow)
  else
    .error (invoiceMissingMsg (missingCols requiredInvoiceCols presentCols))

/-! ### Reconciliation Engine (reconciliation tab, app.py lines 108-115) -/

/-- The three code sets computed by the reconciliation tab. -/
structure RecoResult where
  matched : Finset String
  missingFromInvoices : Finset String
  unmatchedInvoices : Finset String
deriving DecidableEq

/-- The distinct non-empty contract codes of a processed contracts
table (app.py line 111). -/
def codesInContracts (contracts : List ContractRecord) : Finset String :=
  ((contracts.map ContractRecord.contractCode).filter (fun c => c ≠ "")).toFinset

/-- The distinct non-empty contract codes of a processed invoice table
(app.py line 112). -/
def codesInInvoices (invoices : List InvoiceRecord) : Finset String :=
  ((invoices.map InvoiceRecord.contractCode).filter (fun c => c ≠ "")).toFinset

/-- The reconciliation computation (app.py lines 111-115):
intersection and the two set differences of the code sets. -/
def tab_reco (contracts : List ContractRecord) (invoices : List InvoiceRecord) :
    RecoResult :=
  let codes1 := codesInContracts contracts
  let codes2 := codesInInvoices invoices
  ⟨codes1 ∩ codes2, codes1 \ codes2, codes2 \ codes1⟩

/-! ### Schedule Generator (`generate_payment_schedule`, app.py lines 29-44) -/

/-- One row of the generated schedule DataFrame: the `%B %Y` month
label, the month-start payment date, and the installment amount. -/
structure ScheduleEntry where
  paymentMonth : String
  paymentDate : Date
  amount : ℚ
deriving DecidableEq

/-- Range `pd.date_range(start, end, freq = MS)`: every first-of-month date
`d` with `start ≤ d ≤ end`, in chronological order, enumerated through
the linear month counter. -/
def monthStartsBetween (s e : Date) : List Date :=
  ((List.range (monthIdx e + 1 - monthIdx s)).map
      (fun i => monthStartOfIdx (monthIdx s + i))).filter
    (fun d => Date.le s d && Date.le d e)

/-- Function `generate_payment_schedule` (app.py lines 29-44) after date
parsing: a NaT start or end date (the `except` branch / an empty
range) yields the empty schedule, otherwise one row per month-start
anchor in the range, each carrying the installment amount. -/
def generate_payment_schedule (startDate endDate : Option Date)
    (installmentAmount : ℚ) : List ScheduleEntry :=
  match startDate, endDate with
  | some s, some e =>
    (monthStartsBetween s e).map (fun d => ⟨monthLabel d, d, installmentAmount⟩)
  | _, _ => []

/-! ### As-of-today status analysis (schedule tab, app.py lines 168-187) -/

/-- The figures of the as-of-today analysis: expected value to date,
total actually invoiced, and the past-due schedule rows with no
invoice in their month. -/
structure StatusResult where
  expectedToDate : ℚ
  actualInvoiced : ℚ
  missingInvoices : List ScheduleEntry
deriving DecidableEq

/-- The `%B %Y` payment-month label of a processed invoice (app.py
line 180): `none` models the NaN label of an invoice whose stored date
string is unparseable (NaT). -/
def invoiceMonthLabel (inv : InvoiceRecord) : Option String :=
  (parseDMY inv.date).map monthLabel

/-- The as-of-today status analysis (app.py lines 171-183): filter the
schedule to rows due on or before today; sum their amounts; sum the
amounts of all invoices carrying the selected code (no date filter);
and report the past-due schedule rows whose month label is not among
the payment-month labels of those invoices. -/
def tab_schedule_status (schedule : List ScheduleEntry)
    (invoices : List InvoiceRecord) (selectedCode : String) (today : Date) :
    StatusResult :=
  let expectedRows := schedule.filter (fun en => Date.le en.paymentDate today)
  let invoicesForContract := invoices.filter
    (fun inv => inv.contractCode == selectedCode)
  let actualPaymentMonths := invoicesForContract.map invoiceMonthLabel
  ⟨(expectedRows.map ScheduleEntry.amount).sum,
   (invoicesForContract.map InvoiceRecord.amount).sum,
   expectedRows.filter
     (fun en => !(actualPaymentMonths.contains (some en.paymentMonth)))⟩

/-! ### Helper lemmas: dates and month anchors -/

theorem Date.le_iff (a b : Date) : Date.le a b = true ↔
    (a.year < b.year ∨ (a.year = b.year ∧ (a.month < b.month ∨
      (a.month = b.month ∧ a.day ≤ b.day)))) := by
  unfold Date.le
  split_ifs with h1 h2 h3 h4 <;> simp <;> omega

theorem monthIdx_monthStartOfIdx (k : Nat) : monthIdx (monthStartOfIdx k) = k := by
  unfold monthIdx monthStartOfIdx
  simp
  omega

theorem validDate_monthStartOfIdx (k : Nat) : validDate (monthStartOfIdx k) := by
  unfold validDate monthStartOfIdx
  simp
  omega

theorem day_monthStartOfIdx (k : Nat) : (monthStartOfIdx k).day = 1 := rfl

theorem monthStartOfIdx_eq_self {d : Date} (hd1 : d.day = 1) (hm1 : 1 ≤ d.month)
    (hm2 : d.month ≤ 12) : monthStartOfIdx (monthIdx d) = d := by
  cases d with
  | mk y m dd =>
    simp only [monthIdx, monthStartOfIdx] at *
    simp_all [Date.mk.injEq]
    omega

theorem monthIdx_le_of_le {a b : Date} (h : Date.le a b = true)
    (ha : a.month ≤ 12) (hb : 1 ≤ b.month) : monthIdx a ≤ monthIdx b := by
  rw [Date.le_iff] at h
  unfold monthIdx
  omega

theorem mem_monthStartsBetween {s e d : Date} (h : d ∈ monthStartsBetween s e) :
    (∃ k, d = monthStartOfIdx k) ∧ Date.le s d = true ∧ Date.le d e = true := by
  unfold monthStartsBetween at h
  rw [List.mem_filter] at h
  obtain ⟨hmem, hcond⟩ := h
  rw [List.mem_map] at hmem
  obtain ⟨i, hi, rfl⟩ := hmem
  simp only [Bool.and_eq_true] at hcond
  exact ⟨⟨monthIdx s + i, rfl⟩, hcond.1, hcond.2⟩

theorem monthStartsBetween_complete {s e d : Date} (hs : validDate s) (he : validDate e)
    (hd1 : d.day = 1) (hdv : validDate d) (h1 : Date.le s d = true)
    (h2 : Date.le d e = true) : d ∈ monthStartsBetween s e := by
  unfold monthStartsBetween
  rw [List.mem_filter]
  have hle1 : monthIdx s ≤ monthIdx d := monthIdx_le_of_le h1 hs.2.1 hdv.1
  have hle2 : monthIdx d ≤ monthIdx e := monthIdx_le_of_le h2 hdv.2.1 he.1
  constructor
  · rw [List.mem_map]
    refine ⟨monthIdx d - monthIdx s, ?_, ?_⟩
    · rw [List.mem_range]; omega
    · have heq : monthIdx s + (monthIdx d - monthIdx s) = monthIdx d := by omega
      rw [heq, monthStartOfIdx_eq_self hd1 hdv.1 hdv.2.1]
  · simp [h1, h2]

theorem monthStartsBetween_pairwise (s e : Date) :
    (monthStartsBetween s e).Pairwise (fun a b => monthIdx a < monthIdx b) := by
  unfold monthStartsBetween
  apply List.Pairwise.sublist (List.filter_sublist _)
  rw [List.pairwise_map]
  apply (List.pairwise_lt_range _).imp
  intro i j hij
  simp only [monthIdx_monthStartOfIdx]
  omega

/-! ### Helper lemmas: the findall scanner -/

/-- Predicate `OccursDisjointly ms l`: the strings `ms` occur in `l`, in order,
as pairwise non-overlapping substrings. -/
inductive OccursDisjointly : List (List Char) → List Char → Prop
  | nil (l : List Char) : OccursDisjointly [] l
  | cons (pre m : List Char) (ms : List (List Char)) (rest : List Char) :
      OccursDisjointly ms rest → OccursDisjointly (m :: ms) (pre ++ (m ++ rest))

theorem OccursDisjointly.cons_left {ms : List (List Char)} {l : List Char}
    (c : Char) (h : OccursDisjointly ms l) : OccursDisjointly ms (c :: l) := by
  cases h with
  | nil l => exact .nil (c :: l)
  | cons pre m ms rest hrec => exact .cons (c :: pre) m ms rest hrec

theorem findallAux_occurs (fuel : Nat) :
    ∀ l : List Char, OccursDisjointly (findallAux fuel l) l := by
  induction fuel with
  | zero => intro l; exact .nil l
  | succ n ih =>
    intro l
    match l with
    | [] => exact .nil []
    | c :: cs =>
      show OccursDisjointly (findallAux (n + 1) (c :: cs)) (c :: cs)
      rw [findallAux]
      by_cases hc : isCodeChar c
      · simp only [hc, if_true]
        rcases hdw : (c :: cs).dropWhile isCodeChar with _ | ⟨d, rest2⟩
        · exact OccursDisjointly.cons_left c (ih cs)
        · by_cases hd : d = '/'
          · subst hd
            simp only [if_true]
            by_cases hdig : (rest2.takeWhile Char.isDigit).isEmpty
            · simp only [hdig, if_true]
              exact OccursDisjointly.cons_left c (ih cs)
            · simp only [hdig, if_false]
              have hsplit : (c :: cs).takeWhile isCodeChar ++
                  (c :: cs).dropWhile isCodeChar = c :: cs := by simp
              have hdecomp : c :: cs =
                  ((c :: cs).takeWhile isCodeChar ++ '/' :: rest2.takeWhile Char.isDigit)
                    ++ rest2.dropWhile Char.isDigit := by
                conv_lhs => rw [← hsplit]
                rw [hdw, List.append_assoc, List.cons_append,
                    List.takeWhile_append_dropWhile]
              have h := OccursDisjointly.cons []
                ((c :: cs).takeWhile isCodeChar ++ '/' :: rest2.takeWhile Char.isDigit)
                (findallAux n (rest2.dropWhile Char.isDigit))
                (rest2.dropWhile Char.isDigit)
                (ih (rest2.dropWhile Char.isDigit))
              simp only [List.nil_append] at h
              rwa [← hdecomp] at h
          · simp only [hd, if_false]
            exact OccursDisjointly.cons_left c (ih cs)
      · simp only [hc, if_false]
        exact OccursDisjointly.cons_left c (ih cs)

theorem OccursDisjointly.mem_substring {ms : List (List Char)} {l : List Char}
    (h : OccursDisjointly ms l) : ∀ m ∈ ms, m <:+: l := by
  induction h with
  | nil l => simp
  | cons pre m ms rest hrec ih =>
    intro x hx
    rcases List.mem_cons.mp hx with rfl | hx
    · exact ⟨pre, rest, by simp⟩
    · exact (ih x hx).trans ⟨pre ++ m, [], by simp⟩

theorem findallAux_shape (fuel : Nat) :
    ∀ (l m : List Char), m ∈ findallAux fuel l →
      ∃ code num, code ≠ [] ∧ num ≠ [] ∧
        (∀ c ∈ code, isCodeChar c = true) ∧ (∀ c ∈ num, c.isDigit = true) ∧
        m = code ++ '/' :: num := by
  induction fuel with
  | zero => intro l m h; simp [findallAux] at h
  | succ n ih =>
    intro l m hm
    match l with
    | [] => simp [findallAux] at hm
    | c :: cs =>
      rw [findallAux] at hm
      by_cases hc : isCodeChar c
      · simp only [hc, if_true] at hm
        rcases hdw : (c :: cs).dropWhile isCodeChar with _ | ⟨d, rest2⟩ <;>
          rw [hdw] at hm
        · exact ih cs m hm
        · by_cases hd : d = '/'
          · subst hd
            simp only [if_true] at hm
            by_cases hdig : (rest2.takeWhile Char.isDigit).isEmpty
            · simp only [hdig, if_true] at hm
              exact ih cs m hm
            · simp only [hdig, if_false] at hm
              rcases List.mem_cons.mp hm with rfl | hm
              · refine ⟨(c :: cs).takeWhile isCodeChar, rest2.takeWhile Char.isDigit,
                  ?_, ?_, ?_, ?_, rfl⟩
                · rw [List.takeWhile_cons_of_pos hc]; simp
                · simpa [List.isEmpty_iff] using hdig
                · intro x hx; exact List.mem_takeWhile_imp hx
                · intro x hx; exact List.mem_takeWhile_imp hx
              · exact ih _ m hm
          · simp only [hd, if_false] at hm
            exact ih cs m hm
      · simp only [hc, if_false] at hm
        exact ih cs m hm

theorem findallAux_eq_nil_of_no_code (fuel : Nat) :
    ∀ l : List Char, (∀ c ∈ l, isCodeChar c = false) → findallAux fuel l = [] := by
  induction fuel with
  | zero => intro l h; rfl
  | succ n ih =>
    intro l h
    match l with
    | [] => rfl
    | c :: cs =>
      rw [findallAux]
      have hc : isCodeChar c = false := h c (by simp)
      simp only [hc, if_false, Bool.false_eq_true]
      exact ih cs (fun x hx => h x (List.mem_cons_of_mem c hx))

theorem isCodeChar_isLower_false (c : Char) (h : isCodeChar c = true) :
    c.isLower = false := by
  unfold isCodeChar at h
  simp only [Bool.or_eq_true, beq_iff_eq] at h
  rcases h with (((hu | hd) | h1) | h2) | h3
  · simp only [Char.isUpper, Bool.and_eq_true, decide_eq_true_eq] at hu
    simp only [Char.isLower, Bool.and_eq_false_iff, decide_eq_false_iff_not]
    left
    intro hge
    have hge' : (97 : UInt32) ≤ c.val := hge
    exact absurd (UInt32.le_trans hge' hu.2) (by decide)
  · simp only [Char.isDigit, Bool.and_eq_true, decide_eq_true_eq] at hd
    simp only [Char.isLower, Bool.and_eq_false_iff, decide_eq_false_iff_not]
    left
    intro hge
    have hge' : (97 : UInt32) ≤ c.val := hge
    exact absurd (UInt32.le_trans hge' hd.2) (by decide)
  · subst h1; decide
  · subst h2; decide
  · subst h3; decide

/-- C1: for every string input, `extract_code_from_ref` returns the
last of all non-overlapping substrings matching `CODE/NUMBER` (CODE a
nonempty run over the class `[A-Z0-9&_-]`, NUMBER a nonempty digit
run, separated by a single slash): the findall matches occur in the
input disjointly and in order, each match has the `CODE/NUMBER` shape,
the function returns the last match (or the empty string when there is
none), and on the two reference examples it returns "RIS/125" and
"KSV/227". -/
theorem extract_code_rightmost_match :
    (∀ l : List Char, OccursDisjointly (findallCN l) l) ∧
    (∀ (l m : List Char), m ∈ findallCN l →
      ∃ code num, code ≠ [] ∧ num ≠ [] ∧
        (∀ c ∈ code, isCodeChar c = true) ∧ (∀ c ∈ num, c.isDigit = true) ∧
        m = code ++ '/' :: num) ∧
    (∀ (s : String) (m : List Char), (findallCN s.data).getLast? = some m →
      extract_code_from_ref (.str s) = String.mk m) ∧
    (∀ s : String, findallCN s.data = [] → extract_code_from_ref (.str s) = "") ∧
    extract_code_from_ref (.str ("JA588/AUG24/RIS/125")) = "RIS/125" ∧
    extract_code_from_ref (.str ("R25/KSV/227 - 6")) = "KSV/227" := by
  refine ⟨fun l => findallAux_occurs l.length l,
    fun l m h => findallAux_shape l.length l m h, ?_, ?_, by decide, by decide⟩
  · intro s m h
    simp [extract_code_from_ref, h]
  · intro s h
    simp [extract_code_from_ref, h]

/-- Witness for C1: the rightmost-match conjunct applied to the first
reference example. -/
theorem extract_code_rightmost_match_witness :
    extract_code_from_ref (.str ("JA588/AUG24/RIS/125")) =
      String.mk (("RIS/125").data) :=
  extract_code_rightmost_match.2.2.1 ("JA588/AUG24/RIS/125") (("RIS/125").data)
    (by decide)

/-- C5: `extract_code_from_ref` is a total function (it is a Lean
function into `String`, so it returns a string on every input and
cannot throw); every non-string cell value returns the empty string
immediately, in particular the number 123 and a missing cell, and a
string with no match, such as "no-slash-here", also returns the empty
string. -/
theorem extract_code_total_nonstring :
    (∀ v : CellValue, (∀ s : String, v ≠ CellValue.str s) →
      extract_code_from_ref v = "") ∧
    extract_code_from_ref (.num 123) = "" ∧
    extract_code_from_ref CellValue.empty = "" ∧
    extract_code_from_ref (.str ("no-slash-here")) = "" := by
  refine ⟨?_, rfl, rfl, by decide⟩
  intro v h
  match v with
  | .str s => exact absurd rfl (h s)
  | .num q => rfl
  | .empty => rfl

/-- Witness for C5: the non-string conjunct applied to the number 123. -/
theorem extract_code_total_nonstring_witness :
    extract_code_from_ref (.num 123) = "" :=
  extract_code_total_nonstring.1 (.num 123) (fun _ h => CellValue.noConfusion h)

/-- C10: the Reference Parser performs no case normalization: no
lowercase letter is in the CODE character class, a string consisting
only of lowercase letters, slashes and spaces extracts nothing,
"ksv/227" extracts the empty string while "KSV/227" extracts
"KSV/227", and every findall match is a literal substring of the
input (never a case-folded copy). -/
theorem extract_code_case_sensitive :
    (∀ c : Char, isCodeChar c = true → c.isLower = false) ∧
    (∀ s : String, (∀ c ∈ s.data, c.isLower = true ∨ c = '/' ∨ c = ' ') →
      extract_code_from_ref (.str s) = "") ∧
    extract_code_from_ref (.str ("ksv/227")) = "" ∧
    extract_code_from_ref (.str ("KSV/227")) = "KSV/227" ∧
    (∀ (s : String) (m : List Char), m ∈ findallCN s.data → m <:+: s.data) := by
  refine ⟨isCodeChar_isLower_false, ?_, by decide, by decide,
    fun s m h => (findallAux_occurs (s.data).length s.data).mem_substring m h⟩
  intro s h
  have hnone : ∀ c ∈ s.data, isCodeChar c = false := by
    intro c hc
    rcases h c hc with hl | hsl | hsp
    · by_cases hcc : isCodeChar c
      · rw [isCodeChar_isLower_false c hcc] at hl
        exact absurd hl (by simp)
      · simpa using hcc
    · subst hsl; decide
    · subst hsp; decide
  have hnil : findallCN s.data = [] :=
    findallAux_eq_nil_of_no_code (s.data).length s.data hnone
  show extract_code_from_ref (.str s) = ""
  simp [extract_code_from_ref, hnil]

/-- Witness for C10: the lowercase-only conjunct applied to "aa/bb". -/
theorem extract_code_case_sensitive_witness :
    extract_code_from_ref (.str ("aa/bb")) = "" :=
  extract_code_case_sensitive.2.1 ("aa/bb") (by decide)

theorem ne_empty_of_mem_codesInContracts {x : String} {contracts : List ContractRecord}
    (h : x ∈ codesInContracts contracts) : x ≠ "" := by
  unfold codesInContracts at h
  rw [List.mem_toFinset, List.mem_filter] at h
  simpa using h.2

theorem ne_empty_of_mem_codesInInvoices {x : String} {invoices : List InvoiceRecord}
    (h : x ∈ codesInInvoices invoices) : x ≠ "" := by
  unfold codesInInvoices at h
  rw [List.mem_toFinset, List.mem_filter] at h
  simpa using h.2

/-- C2: with A the set of non-empty contract codes of the processed
contracts table and B the set of non-empty codes of the processed
invoice table, the reconciliation tab computes matched = A ∩ B,
missingFromInvoices = A − B, unmatchedInvoices = B − A; the three
sets are pairwise disjoint, their union is A ∪ B, and the empty
string belongs to none of them. -/
theorem tab_reco_partition :
    ∀ (contracts : List ContractRecord) (invoices : List InvoiceRecord),
      (tab_reco contracts invoices).matched =
        codesInContracts contracts ∩ codesInInvoices invoices ∧
      (tab_reco contracts invoices).missingFromInvoices =
        codesInContracts contracts \ codesInInvoices invoices ∧
      (tab_reco contracts invoices).unmatchedInvoices =
        codesInInvoices invoices \ codesInContracts contracts ∧
      (tab_reco contracts invoices).matched ∩
        (tab_reco contracts invoices).missingFromInvoices = ∅ ∧
      (tab_reco contracts invoices).matched ∩
        (tab_reco contracts invoices).unmatchedInvoices = ∅ ∧
      (tab_reco contracts invoices).missingFromInvoices ∩
        (tab_reco contracts invoices).unmatchedInvoices = ∅ ∧
      ((tab_reco contracts invoices).matched ∪
        (tab_reco contracts invoices).missingFromInvoices ∪
        (tab_reco contracts invoices).unmatchedInvoices) =
        codesInContracts contracts ∪ codesInInvoices invoices ∧
      ("" ∉ (tab_reco contracts invoices).matched ∧
       "" ∉ (tab_reco contracts invoices).missingFromInvoices ∧
       "" ∉ (tab_reco contracts invoices).unmatchedInvoices) := by
  intro contracts invoices
  refine ⟨rfl, rfl, rfl, ?_, ?_, ?_, ?_, ?_, ?_, ?_⟩
  · ext x; simp [tab_reco]; try tauto
  · ext x; simp [tab_reco]; try tauto
  · ext x; simp [tab_reco]; try tauto
  · ext x; simp [tab_reco]; try tauto
  · intro h
    have hx : ("" : String) ∈ codesInContracts contracts := by
      have := (Finset.mem_inter.mp h).1
      simpa [tab_reco] using this
    exact absurd rfl (ne_empty_of_mem_codesInContracts hx)
  · intro h
    have hx : ("" : String) ∈ codesInContracts contracts := by
      have := (Finset.mem_sdiff.mp h).1
      simpa [tab_reco] using this
    exact absurd rfl (ne_empty_of_mem_codesInContracts hx)
  · intro h
    have hx : ("" : String) ∈ codesInInvoices invoices := by
      have := (Finset.mem_sdiff.mp h).1
      simpa [tab_reco] using this
    exact absurd rfl (ne_empty_of_mem_codesInInvoices hx)

/-- Witness for C2: the partition applied to a pair of empty tables. -/
theorem tab_reco_partition_witness :
    ("" : String) ∉ (tab_reco [] []).matched :=
  (tab_reco_partition [] []).2.2.2.2.2.2.2.1

/-- C6: for every normalized contract row, totalValue equals
`rent.fillna(0) + service.fillna(0)` (a missing source value is
treated as zero); it is a total rational, never null; and
normalizing a row with rent missing and service 50 gives
totalValue 50. -/
theorem totalValue_null_as_zero :
    (∀ r : RawContractRow, (normalizeContractRow r).totalValue =
      r.rentAsPerContract.getD 0 + r.serviceAsPerContract.getD 0) ∧
    (∀ (r : RawContractRow) (a b : ℚ), r.rentAsPerContract = some a →
      r.serviceAsPerContract = some b → (normalizeContractRow r).totalValue = a + b) ∧
    (∀ (r : RawContractRow) (b : ℚ), r.rentAsPerContract = none →
      r.serviceAsPerContract = some b → (normalizeContractRow r).totalValue = b) ∧
    (∀ (r : RawContractRow) (a : ℚ), r.rentAsPerContract = some a →
      r.serviceAsPerContract = none → (normalizeContractRow r).totalValue = a) ∧
    (normalizeContractRow
      ⟨CellValue.empty, CellValue.empty, CellValue.empty, CellValue.empty,
       CellValue.empty, CellValue.empty, CellValue.empty, CellValue.empty,
       none, some 50⟩).totalValue = 50 := by
  refine ⟨fun r => rfl, ?_, ?_, ?_, ?_⟩
  · intro r a b h1 h2
    simp [normalizeContractRow, h1, h2]
  · intro r b h1 h2
    simp [normalizeContractRow, h1, h2]
  · intro r a h1 h2
    simp [normalizeContractRow, h1, h2]
  · simp [normalizeContractRow]

/-- Witness for C6: the rent-missing conjunct applied to a concrete
row with rent `none` and service 50. -/
theorem totalValue_null_as_zero_witness :
    (normalizeContractRow
      ⟨CellValue.empty, CellValue.empty, CellValue.empty, CellValue.empty,
       CellValue.empty, CellValue.empty, CellValue.empty, CellValue.empty,
       none, some 50⟩).totalValue = 50 :=
  totalValue_null_as_zero.2.2.1
    ⟨CellValue.empty, CellValue.empty, CellValue.empty, CellValue.empty,
     CellValue.empty, CellValue.empty, CellValue.empty, CellValue.empty,
     none, some 50⟩ 50 rfl rfl

/-- C9 counterexample: for a contracts table presenting exactly the
nine required columns other than "Start Date", the report produced is
the string "Contract file missing columns: Start Date"; the column
"Tenants" is present in the upload, yet its name does not occur in the
report, so the claim that the report carries the full list of column
names actually present is false on this input. -/
theorem missing_columns_report_cex :
    processContracts (requiredContractCols.erase ("Start Date")) [] =
      .error ("Contract file missing columns: Start Date") ∧
    ("Tenants" ∈ requiredContractCols.erase ("Start Date")) ∧
    ¬ (("Tenants").data <:+: ("Contract file missing columns: Start Date").data) := by
  refine ⟨rfl, by decide, by decide⟩

/-- C9 (amended): for every uploaded table — the contracts table and
the transaction log alike — when at least one required column is
missing (by exact case-sensitive comparison against that table's
fixed list), processing reports exactly the enumerated missing names
and performs no further computation on the table; a contracts table
lacking only "Start Date" reports exactly ["Start Date"], and a
transaction log lacking only "Amount" reports exactly ["Amount"]. -/
theorem missing_columns_enumerated :
    (∀ (present : List String) (rows : List RawContractRow),
      missingCols requiredContractCols present = [] →
      processContracts present rows = .ok (rows.map normalizeContractRow)) ∧
    (∀ (present : List String) (rows : List RawContractRow),
      missingCols requiredContractCols present ≠ [] →
      processContracts present rows =
        .error (contractMissingMsg (missingCols requiredContractCols present))) ∧
    (∀ (present : List String) (c : String),
      c ∈ missingCols requiredContractCols present ↔
        (c ∈ requiredContractCols ∧ c ∉ present)) ∧
    missingCols requiredContractCols (requiredContractCols.erase ("Start Date")) =
      ["Start Date"] ∧
    processContracts (requiredContractCols.erase ("Start Date")) [] =
      .error ("Contract file missing columns: Start Date") ∧
    (∀ (present : List String) (rows : List RawInvoiceRow),
      missingCols requiredInvoiceCols present = [] →
      processInvoices present rows =
        .ok ((rows.filter isInvoiceRow).map normalizeInvoiceRow)) ∧
    (∀ (present : List String) (rows : List RawInvoiceRow),
      missingCols requiredInvoiceCols present ≠ [] →
      processInvoices present rows =
        .error (invoiceMissingMsg (missingCols requiredInvoiceCols present))) ∧
    (∀ (present : List String) (c : String),
      c ∈ missingCols requiredInvoiceCols present ↔
        (c ∈ requiredInvoiceCols ∧ c ∉ present)) ∧
    missingCols requiredInvoiceCols (requiredInvoiceCols.erase ("Amount")) =
      ["Amount"] ∧
    processInvoices (requiredInvoiceCols.erase ("Amount")) [] =
      .error ("Transaction log missing columns: Amount") := by
  refine ⟨?_, ?_, ?_, by decide, rfl, ?_, ?_, ?_, by decide, rfl⟩
  · intro present rows h
    simp [processContracts, h]
  · intro present rows h
    rw [processContracts, if_neg]
    simp [List.isEmpty_iff, h]
  · intro present c
    unfold missingCols
    rw [List.mem_filter]
    simp
  · intro present rows h
    simp [processInvoices, h]
  · intro present rows h
    rw [processInvoices, if_neg]
    simp [List.isEmpty_iff, h]
  · intro present c
    unfold missingCols
    rw [List.mem_filter]
    simp

/-- Witness for C9: the error branches applied to the nine-column
contracts upload and the four-column transaction-log upload. -/
theorem missing_columns_enumerated_witness :
    processContracts (requiredContractCols.erase ("Start Date")) [] =
      .error (contractMissingMsg
        (missingCols requiredContractCols
          (requiredContractCols.erase ("Start Date")))) ∧
    processInvoices (requiredInvoiceCols.erase ("Amount")) [] =
      .error (invoiceMissingMsg
        (missingCols requiredInvoiceCols
          (requiredInvoiceCols.erase ("Amount")))) :=
  ⟨missing_columns_enumerated.2.1 (requiredContractCols.erase ("Start Date")) []
    (by decide),
   missing_columns_enumerated.2.2.2.2.2.2.1 (requiredInvoiceCols.erase ("Amount")) []
    (by decide)⟩

/-- C3: for a contract with parseable (valid) start and end dates and
a fixed installment amount, the generated schedule has one entry per
calendar month whose first day lies within [start, end] inclusive
(soundness, strict chronological order, and completeness), every
entry carries the installment amount and the `%B %Y` label of its
month; concretely, for start 2024-01-15 and end 2024-03-10 the
schedule is exactly [February 2024, March 2024]. -/
theorem schedule_one_entry_per_month :
    (∀ (s e : Date) (a : ℚ), validDate s → validDate e →
      ((∀ en ∈ generate_payment_schedule (some s) (some e) a,
          en.amount = a ∧ en.paymentDate.day = 1 ∧
          Date.le s en.paymentDate = true ∧ Date.le en.paymentDate e = true ∧
          en.paymentMonth = monthLabel en.paymentDate) ∧
       (generate_payment_schedule (some s) (some e) a).Pairwise
          (fun x y => monthIdx x.paymentDate < monthIdx y.paymentDate) ∧
       (∀ d : Date, validDate d → d.day = 1 → Date.le s d = true →
          Date.le d e = true →
          d ∈ (generate_payment_schedule (some s) (some e) a).map
                ScheduleEntry.paymentDate))) ∧
    (∀ a : ℚ, generate_payment_schedule (some (⟨2024, 1, 15⟩ : Date))
        (some (⟨2024, 3, 10⟩ : Date)) a =
      [⟨"February 2024", ⟨2024, 2, 1⟩, a⟩, ⟨"March 2024", ⟨2024, 3, 1⟩, a⟩]) := by
  constructor
  · intro s e a hs he
    refine ⟨?_, ?_, ?_⟩
    · intro en hen
      rw [generate_payment_schedule, List.mem_map] at hen
      obtain ⟨d, hd, rfl⟩ := hen
      obtain ⟨⟨k, rfl⟩, h1, h2⟩ := mem_monthStartsBetween hd
      exact ⟨rfl, rfl, h1, h2, rfl⟩
    · rw [generate_payment_schedule, List.pairwise_map]
      exact monthStartsBetween_pairwise s e
    · intro d hdv hd1 h1 h2
      rw [generate_payment_schedule, List.map_map]
      have : (ScheduleEntry.paymentDate ∘ fun d => (⟨monthLabel d, d, a⟩ : ScheduleEntry)) =
          id := rfl
      rw [this, List.map_id]
      exact monthStartsBetween_complete hs he hd1 hdv h1 h2
  · intro a
    rfl

/-- Witness for C3: the schedule for the concrete 2024-01-15 ..
2024-03-10 contract, via the completeness conjunct at 2024-02-01. -/
theorem schedule_one_entry_per_month_witness :
    (⟨2024, 2, 1⟩ : Date) ∈
      (generate_payment_schedule (some (⟨2024, 1, 15⟩ : Date))
        (some (⟨2024, 3, 10⟩ : Date)) 1000).map ScheduleEntry.paymentDate :=
  ((schedule_one_entry_per_month.1 ⟨2024, 1, 15⟩ ⟨2024, 3, 10⟩ 1000
      (by decide) (by decide)).2.2 ⟨2024, 2, 1⟩ (by decide) rfl
    (by decide) (by decide))

/-- C8: the schedule generator returns the empty sequence (and cannot
raise, being a total Lean function) whenever the start or end date is
absent or unparseable (NaT), or the date range contains no month-start
day. -/
theorem schedule_empty_on_bad_dates :
    (∀ (oe : Option Date) (a : ℚ), generate_payment_schedule none oe a = []) ∧
    (∀ (os : Option Date) (a : ℚ), generate_payment_schedule os none a = []) ∧
    (∀ (s e : Date) (a : ℚ),
      (∀ d : Date, d.day = 1 → ¬(Date.le s d = true ∧ Date.le d e = true)) →
      generate_payment_schedule (some s) (some e) a = []) := by
  refine ⟨?_, ?_, ?_⟩
  · intro oe a
    cases oe <;> rfl
  · intro os a
    cases os <;> rfl
  · intro s e a h
    rw [generate_payment_schedule]
    have hempty : monthStartsBetween s e = [] := by
      rw [monthStartsBetween]
      rw [List.filter_eq_nil_iff]
      intro d hd
      rw [List.mem_map] at hd
      obtain ⟨i, hi, rfl⟩ := hd
      have := h (monthStartOfIdx (monthIdx s + i)) rfl
      simp only [Bool.and_eq_true]
      tauto
    rw [hempty]
    rfl

/-- Witness for C8: a range containing no month start (2024-03-10 to
2024-03-20) yields the empty schedule. -/
theorem schedule_empty_on_bad_dates_witness :
    generate_payment_schedule (some (⟨2024, 3, 10⟩ : Date))
      (some (⟨2024, 3, 20⟩ : Date)) 1000 = [] :=
  schedule_empty_on_bad_dates.2.2 ⟨2024, 3, 10⟩ ⟨2024, 3, 20⟩ 1000
    (by
      intro d hday hc
      obtain ⟨h1, h2⟩ := hc
      rw [Date.le_iff] at h1
      rw [Date.le_iff] at h2
      simp only at h1 h2
      omega)

theorem contains_cons_eq {α : Type} [BEq α] [LawfulBEq α] (a x : α) (l : List α)
    (h : x = a → x ∈ l) : (a :: l).contains x = l.contains x := by
  rw [List.contains_cons]
  cases hbeq : x == a
  · simp
  · have hx : x = a := eq_of_beq hbeq
    have hm := h hx
    have hc : l.contains x = true := by simpa using hm
    simp [hc, hm]

theorem tab_schedule_status_def (schedule : List ScheduleEntry)
    (invoices : List InvoiceRecord) (code : String) (today : Date) :
    tab_schedule_status schedule invoices code today =
      ⟨((schedule.filter (fun en => Date.le en.paymentDate today)).map
          ScheduleEntry.amount).sum,
       ((invoices.filter (fun inv => inv.contractCode == code)).map
          InvoiceRecord.amount).sum,
       (schedule.filter (fun en => Date.le en.paymentDate today)).filter
         (fun en => !(((invoices.filter (fun inv => inv.contractCode == code)).map
             invoiceMonthLabel).contains (some en.paymentMonth)))⟩ := rfl

/-- C4: expectedToDate is the sum of schedule amounts due on or before
today; actualInvoiced is the sum of the amounts of all invoices
carrying the selected code, with no date filter; the missing-invoice
report holds exactly the past-due schedule entries whose month label
is absent from the payment-month labels of those invoices; and adding
a further invoice in an already-covered month leaves the report
unchanged (months are covered by presence, not by count). -/
theorem status_missing_months :
    ∀ (sched : List ScheduleEntry) (invoices : List InvoiceRecord)
      (code : String) (today : Date),
      (tab_schedule_status sched invoices code today).expectedToDate =
        ((sched.filter (fun en => Date.le en.paymentDate today)).map
          ScheduleEntry.amount).sum ∧
      (tab_schedule_status sched invoices code today).actualInvoiced =
        ((invoices.filter (fun inv => inv.contractCode == code)).map
          InvoiceRecord.amount).sum ∧
      (∀ en : ScheduleEntry,
        en ∈ (tab_schedule_status sched invoices code today).missingInvoices ↔
          (en ∈ sched ∧ Date.le en.paymentDate today = true ∧
           some en.paymentMonth ∉
             (invoices.filter (fun inv => inv.contractCode == code)).map
               invoiceMonthLabel)) ∧
      (∀ inv : InvoiceRecord, inv.contractCode = code →
        invoiceMonthLabel inv ∈
          (invoices.filter (fun inv2 => inv2.contractCode == code)).map
            invoiceMonthLabel →
        (tab_schedule_status sched (inv :: invoices) code today).missingInvoices =
          (tab_schedule_status sched invoices code today).missingInvoices) := by
  intro sched invoices code today
  refine ⟨rfl, rfl, ?_, ?_⟩
  · intro en
    rw [tab_schedule_status_def]
    simp [List.mem_filter, and_assoc]
    try tauto
  · intro inv hcode hmem
    rw [tab_schedule_status_def, tab_schedule_status_def]
    have hfil : (inv :: invoices).filter (fun inv2 => inv2.contractCode == code) =
        inv :: invoices.filter (fun inv2 => inv2.contractCode == code) :=
      List.filter_cons_of_pos (by simp [hcode])
    simp only [hfil, List.map_cons]
    apply List.filter_congr
    intro x hx
    have hsub : some x.paymentMonth = invoiceMonthLabel inv →
        some x.paymentMonth ∈
          (invoices.filter (fun inv2 => inv2.contractCode == code)).map
            invoiceMonthLabel :=
      fun he => he ▸ hmem
    rw [contains_cons_eq _ _ _ hsub]

/-- Witness for C4: with one past-due schedule entry for February 2024
and one invoice already covering that month, adding a second February
invoice leaves the missing-invoice report unchanged. -/
theorem status_missing_months_witness :
    (tab_schedule_status
        [⟨"February 2024", ⟨2024, 2, 1⟩, 1000⟩]
        (⟨"05-02-2024", CellValue.empty, CellValue.empty, "KSV/227", 500⟩ ::
          [⟨"01-02-2024", CellValue.empty, CellValue.empty, "KSV/227", 1000⟩])
        "KSV/227" ⟨2024, 3, 1⟩).missingInvoices =
      (tab_schedule_status
        [⟨"February 2024", ⟨2024, 2, 1⟩, 1000⟩]
        [⟨"01-02-2024", CellValue.empty, CellValue.empty, "KSV/227", 1000⟩]
        "KSV/227" ⟨2024, 3, 1⟩).missingInvoices :=
  status_missing_months
    [⟨"February 2024", ⟨2024, 2, 1⟩, 1000⟩]
    [⟨"01-02-2024", CellValue.empty, CellValue.empty, "KSV/227", 1000⟩]
    "KSV/227" ⟨2024, 3, 1⟩ |>.2.2.2
    ⟨"05-02-2024", CellValue.empty, CellValue.empty, "KSV/227", 500⟩
    rfl (by decide)

/-- C7: parse failures are never errors: every cell whose date fails
to parse normalizes to the empty-string sentinel, a non-text reference
extracts to the empty string, an invoice whose stored date is
unparseable has no payment-month label, and the status analysis (a
total Lean function, so it cannot raise) absorbs such an invoice
silently: its amount still counts toward actualInvoiced while the
missing-invoice report is unchanged, since its label `none` never
matches a schedule month. -/
theorem parse_failures_absorbed :
    (∀ v : CellValue, parseDateCell v = none → normalizeDateField v = "") ∧
    (∀ v : CellValue, (∀ s : String, v ≠ CellValue.str s) →
      extract_code_from_ref v = "") ∧
    (∀ inv : InvoiceRecord, parseDMY inv.date = none → invoiceMonthLabel inv = none) ∧
    (∀ (sched : List ScheduleEntry) (invoices : List InvoiceRecord)
        (code : String) (today : Date) (inv : InvoiceRecord),
      inv.contractCode = code → parseDMY inv.date = none →
      ((tab_schedule_status sched (inv :: invoices) code today).missingInvoices =
        (tab_schedule_status sched invoices code today).missingInvoices ∧
       (tab_schedule_status sched (inv :: invoices) code today).actualInvoiced =
        inv.amount + (tab_schedule_status sched invoices code today).actualInvoiced)) := by
  refine ⟨?_, ?_, ?_, ?_⟩
  · intro v h
    simp [normalizeDateField, h]
  · intro v h
    match v with
    | .str s => exact absurd rfl (h s)
    | .num q => rfl
    | .empty => rfl
  · intro inv h
    simp [invoiceMonthLabel, h]
  · intro sched invoices code today inv hcode hdate
    have hlabel : invoiceMonthLabel inv = none := by
      simp [invoiceMonthLabel, hdate]
    have hfil : (inv :: invoices).filter (fun inv2 => inv2.contractCode == code) =
        inv :: invoices.filter (fun inv2 => inv2.contractCode == code) :=
      List.filter_cons_of_pos (by simp [hcode])
    constructor
    · rw [tab_schedule_status_def, tab_schedule_status_def]
      simp only [hfil, List.map_cons, hlabel]
      apply List.filter_congr
      intro x hx
      have hsub : some x.paymentMonth = none →
          some x.paymentMonth ∈
            (invoices.filter (fun inv2 => inv2.contractCode == code)).map
              invoiceMonthLabel :=
        fun he => absurd he (by simp)
      rw [contains_cons_eq _ _ _ hsub]
    · rw [tab_schedule_status_def, tab_schedule_status_def]
      simp only [hfil, List.map_cons, List.sum_cons]

/-- Witness for C7: an invoice with the empty (unparseable) date
string for code "KSV/227" leaves the missing-invoice report of a
one-entry schedule unchanged. -/
theorem parse_failures_absorbed_witness :
    (tab_schedule_status [⟨"February 2024", ⟨2024, 2, 1⟩, 1000⟩]
        (⟨"", CellValue.empty, CellValue.empty, "KSV/227", 500⟩ :: [])
        "KSV/227" ⟨2024, 3, 1⟩).missingInvoices =
      (tab_schedule_status [⟨"February 2024", ⟨2024, 2, 1⟩, 1000⟩] []
        "KSV/227" ⟨2024, 3, 1⟩).missingInvoices :=
  (parse_failures_absorbed.2.2.2 [⟨"February 2024", ⟨2024, 2, 1⟩, 1000⟩] []
    "KSV/227" ⟨2024, 3, 1⟩
    ⟨"", CellValue.empty, CellValue.empty, "KSV/227", 500⟩ rfl (by decide)).1
